import Mathlib

/-!
Shallow embedding of `src/llm-assistant-frontend/src/components/chat-window.js`,
the `ChatWindow` Lit component of the personal-ai-assistant repository.

The component's own logic (`formatContent`, `handleKeyPress`, `handleInput`,
`scrollToBottom`, `updated`, `render`) is translated directly from the source.
The behaviour of the external libraries it is configured with (markdown-it with
`html: true`, `breaks: true` and a highlight hook; highlight.js; the browser's
textarea, event and scrolling semantics) is modelled explicitly; each such
definition carries a doc comment saying what it models.
-/

/-- Role of a chat message; the component branches on `message.role === 'assistant'`
versus anything else (in practice `'user'`). -/
inductive Role where
  | user
  | assistant
deriving DecidableEq, Repr

/-- The data model: a message is a role plus a content string. -/
structure Message where
  role : Role
  content : String
deriving DecidableEq, Repr

/-- Models the browser's splitting of a source string into lines, as markdown-it
does internally before block parsing: split at every newline character. -/
def splitLinesCh : List Char → List (List Char)
  | [] => [[]]
  | c :: cs =>
    if c = '\n' then [] :: splitLinesCh cs
    else
      match splitLinesCh cs with
      | [] => [[c]]
      | l :: ls => (c :: l) :: ls

/-- Line splitting on strings. -/
def splitLines (s : String) : List String :=
  (splitLinesCh s.data).map (fun l => ⟨l⟩)

/-- Models markdown-it's `escapeHtml` utility: escapes the characters
ampersand, less-than, greater-than and double quote as HTML entities. -/
def escapeHtmlCh : List Char → List Char
  | [] => []
  | c :: cs =>
    (if c = '&' then "&amp;".data
     else if c = '<' then "&lt;".data
     else if c = '>' then "&gt;".data
     else if c = '"' then "&quot;".data
     else [c]) ++ escapeHtmlCh cs

/-- HTML escaping on strings. -/
def escapeHtml (s : String) : String :=
  ⟨escapeHtmlCh s.data⟩

/-- Whether a line is blank (empty or only whitespace). -/
def isBlank (l : String) : Bool :=
  l.data.all (fun c => c.isWhitespace)

/-- Whether a line opens or closes a fenced code block: it starts with three
backticks (the fence marker markdown-it recognises). -/
def isFenceLine (l : String) : Bool :=
  l.data.take 3 == "```".data

/-- Whether a line starts a raw HTML block: with the component's `html: true`
markdown-it option, a line beginning with `<` opens an HTML block that is passed
through to the output verbatim, unescaped. -/
def isHtmlLine (l : String) : Bool :=
  l.data.take 1 == "<".data

/-- Trim leading and trailing whitespace from a character list. -/
def trimCh (l : List Char) : List Char :=
  ((l.dropWhile (fun c => c.isWhitespace)).reverse.dropWhile (fun c => c.isWhitespace)).reverse

/-- The language tag of a fence line: markdown-it takes the info string after the
three fence markers, trims it, and uses its first whitespace-delimited token as
the language name passed to the highlight hook. -/
def fenceInfo (l : String) : String :=
  ⟨(trimCh (l.data.drop 3)).takeWhile (fun c => ¬ c.isWhitespace)⟩

/-- Model of the highlight.js interface the component uses: `getLanguage`
reports whether a language tag is recognised, and `highlight code lang` returns
`some value` (the highlighted token markup) on success and `none` when the
highlighter throws. -/
structure Hljs where
  getLanguage : String → Bool
  highlight : String → String → Option String

/-- The `highlight` hook installed in the `MarkdownIt` options (source lines
13-20): if the language tag is non-empty and recognised, try highlighting and
return the result; a highlighter exception is swallowed by the empty
`catch` and, like an unrecognised or absent tag, falls through to
`return ''`, which tells markdown-it to use its external default escaping. -/
def mdHighlightHook (hl : Hljs) (str lang : String) : String :=
  if lang ≠ "" ∧ hl.getLanguage lang = true then
    match hl.highlight str lang with
    | some v => v
    | none => ""
  else ""

/-- Models markdown-it's fence renderer given the configured highlight hook:
the hook's result is used when non-empty, otherwise the code is escaped with
the default `escapeHtml`; a non-empty language tag adds a `language-` class to
the `code` element. -/
def renderFence (hl : Hljs) (lang : String) (code : String) : String :=
  let highlighted := if mdHighlightHook hl code lang = "" then escapeHtml code
                     else mdHighlightHook hl code lang
  if lang = "" then
    "<pre><code>" ++ highlighted ++ "</code></pre>\n"
  else
    "<pre><code class=\"language-" ++ lang ++ "\">" ++ highlighted ++ "</code></pre>\n"

/-- Collect the lines of a fenced code block up to (and dropping) the closing
fence line. -/
def takeCode : List String → (List String × List String)
  | [] => ([], [])
  | l :: ls =>
    if isFenceLine l then ([], ls)
    else
      let (c, rest) := takeCode ls
      (l :: c, rest)

/-- Collect the lines of a raw HTML block: it runs until the next blank line. -/
def takeHtml : List String → (List String × List String)
  | [] => ([], [])
  | l :: ls =>
    if isBlank l then ([], l :: ls)
    else
      let (a, rest) := takeHtml ls
      (l :: a, rest)

/-- Whether a line terminates a paragraph: a blank line, a fence opener or a raw
HTML opener all start a new block. -/
def isBlockStart (l : String) : Bool :=
  isBlank l || isFenceLine l || isHtmlLine l

/-- Collect the lines of a paragraph: plain lines up to the next block start. -/
def takePlain : List String → (List String × List String)
  | [] => ([], [])
  | l :: ls =>
    if isBlockStart l then ([], l :: ls)
    else
      let (a, rest) := takePlain ls
      (l :: a, rest)

/-- The code string markdown-it hands to the highlight hook for a fenced block:
the block's lines joined by newlines, with a trailing newline. -/
def codeJoin (codeLines : List String) : String :=
  String.intercalate "\n" codeLines ++ "\n"

theorem takeCode_rest_length (ls : List String) : (takeCode ls).2.length ≤ ls.length := by
  induction ls with
  | nil => simp [takeCode]
  | cons l ls ih =>
    by_cases h : isFenceLine l
    · simp [takeCode, h]
    · simp [takeCode, h]
      omega

theorem takeHtml_rest_length (ls : List String) : (takeHtml ls).2.length ≤ ls.length := by
  induction ls with
  | nil => simp [takeHtml]
  | cons l ls ih =>
    by_cases h : isBlank l
    · simp [takeHtml, h]
    · simp [takeHtml, h]
      omega

theorem takePlain_rest_length (ls : List String) : (takePlain ls).2.length ≤ ls.length := by
  induction ls with
  | nil => simp [takePlain]
  | cons l ls ih =>
    by_cases h : isBlockStart l
    · simp [takePlain, h]
    · simp [takePlain, h]
      omega

/-- Fuel-indexed block pass of the modelled `md.render` (see `renderBlocks`).
Fuel at least the number of lines is always enough, since every step consumes
at least one line. -/
def renderBlocksF (hl : Hljs) : Nat → List String → List String
  | _, [] => []
  | 0, _ :: _ => []
  | fuel + 1, l :: ls =>
    if isFenceLine l then
      renderFence hl (fenceInfo l) (codeJoin (takeCode ls).1)
        :: renderBlocksF hl fuel (takeCode ls).2
    else if isHtmlLine l then
      (String.intercalate "\n" (l :: (takeHtml ls).1) ++ "\n")
        :: renderBlocksF hl fuel (takeHtml ls).2
    else if isBlank l then
      renderBlocksF hl fuel ls
    else
      ("<p>" ++ String.intercalate "<br>\n" ((l :: (takePlain ls).1).map escapeHtml) ++ "</p>\n")
        :: renderBlocksF hl fuel (takePlain ls).2

/-- Models the block pass of `md.render` as configured in the component
(source lines 8-21): fenced code blocks go through the highlight hook and the
fence renderer; with `html: true`, raw HTML blocks (opened by a line starting
with `<`, running to the next blank line) are passed through verbatim and
unescaped; remaining non-blank lines form paragraphs whose text is escaped,
with `breaks: true` turning inner newlines into `<br>`. This models the
fragment of CommonMark the verified claims exercise; inline markup inside
paragraphs is not modelled beyond escaping. -/
def renderBlocks (hl : Hljs) (ls : List String) : List String :=
  renderBlocksF hl ls.length ls

theorem renderBlocksF_fuel (hl : Hljs) :
    ∀ fuel ls, ls.length ≤ fuel → renderBlocksF hl fuel ls = renderBlocksF hl ls.length ls := by
  intro fuel
  induction fuel using Nat.strong_induction_on with
  | _ fuel ih =>
    intro ls hle
    cases ls with
    | nil => cases fuel <;> rfl
    | cons l ls =>
      cases fuel with
      | zero => simp at hle
      | succ fuel =>
        have hfuel : ls.length ≤ fuel := by
          simp only [List.length_cons] at hle
          omega
        have hlt : fuel < fuel + 1 := Nat.lt_succ_self _
        have hlt2 : ls.length < fuel + 1 := Nat.lt_succ_of_le hfuel
        simp only [List.length_cons, renderBlocksF]
        rw [ih fuel hlt _ (le_trans (takeCode_rest_length ls) hfuel),
            ih ls.length hlt2 _ (takeCode_rest_length ls),
            ih fuel hlt _ (le_trans (takeHtml_rest_length ls) hfuel),
            ih ls.length hlt2 _ (takeHtml_rest_length ls),
            ih fuel hlt _ hfuel,
            ih fuel hlt _ (le_trans (takePlain_rest_length ls) hfuel),
            ih ls.length hlt2 _ (takePlain_rest_length ls)]

theorem renderBlocks_nil (hl : Hljs) : renderBlocks hl [] = [] := rfl

theorem renderBlocks_cons_fence (hl : Hljs) (l : String) (ls : List String)
    (hf : isFenceLine l = true) :
    renderBlocks hl (l :: ls) =
      renderFence hl (fenceInfo l) (codeJoin (takeCode ls).1)
        :: renderBlocks hl (takeCode ls).2 := by
  simp only [renderBlocks, List.length_cons, renderBlocksF, hf, if_true]
  rw [renderBlocksF_fuel hl ls.length _ (takeCode_rest_length ls)]

theorem renderBlocks_cons_html (hl : Hljs) (l : String) (ls : List String)
    (hf : isFenceLine l = false) (hh : isHtmlLine l = true) :
    renderBlocks hl (l :: ls) =
      (String.intercalate "\n" (l :: (takeHtml ls).1) ++ "\n")
        :: renderBlocks hl (takeHtml ls).2 := by
  simp only [renderBlocks, List.length_cons, renderBlocksF, hf, hh, if_true, if_false,
    Bool.false_eq_true]
  rw [renderBlocksF_fuel hl ls.length _ (takeHtml_rest_length ls)]

theorem renderBlocks_cons_blank (hl : Hljs) (l : String) (ls : List String)
    (hf : isFenceLine l = false) (hh : isHtmlLine l = false) (hb : isBlank l = true) :
    renderBlocks hl (l :: ls) = renderBlocks hl ls := by
  simp only [renderBlocks, List.length_cons, renderBlocksF, hf, hh, hb, if_true, if_false,
    Bool.false_eq_true]

theorem renderBlocks_cons_plain (hl : Hljs) (l : String) (ls : List String)
    (hf : isFenceLine l = false) (hh : isHtmlLine l = false) (hb : isBlank l = false) :
    renderBlocks hl (l :: ls) =
      ("<p>" ++ String.intercalate "<br>\n" ((l :: (takePlain ls).1).map escapeHtml) ++ "</p>\n")
        :: renderBlocks hl (takePlain ls).2 := by
  simp only [renderBlocks, List.length_cons, renderBlocksF, hf, hh, hb, if_true, if_false,
    Bool.false_eq_true]
  rw [renderBlocksF_fuel hl ls.length _ (takePlain_rest_length ls)]

/-- The modelled `md.render`: split into lines, render the blocks, join. -/
def mdRender (hl : Hljs) (content : String) : String :=
  String.join (renderBlocks hl (splitLines content))

/-- What `formatContent` returns, as the rendering pipeline sees it: either a
plain string interpolated into the template (which Lit renders as literal text,
never parsed as markup) or markup injected via the `unsafeHTML` directive
(which the browser parses as HTML). -/
inductive FormattedContent where
  | literal (text : String)
  | unsafeHtml (markup : String)
deriving DecidableEq, Repr

/-- Direct translation of `formatContent` (source lines 152-157): assistant
messages are rendered through `md.render` and injected with `unsafeHTML`;
any other message's content is returned as a literal string. -/
def formatContent (hl : Hljs) (message : Message) : FormattedContent :=
  if message.role = Role.assistant then
    FormattedContent.unsafeHtml (mdRender hl message.content)
  else
    FormattedContent.literal message.content

/-- C1: for every message with role `user`, `formatContent` returns the content
as literal, unformatted text — the `literal` constructor, which the template
interpolates as plain text with no markup interpretation, whatever the content
string holds. -/
theorem user_content_is_literal (hl : Hljs) (m : Message) (h : m.role = Role.user) :
    formatContent hl m = FormattedContent.literal m.content := by
  simp [formatContent, h]

/-- Witness for C1 at a concrete markup-like input. -/
theorem user_content_is_literal_witness :
    formatContent ⟨fun _ => false, fun _ _ => none⟩
        ⟨Role.user, "**bold** <script>alert(1)</script>"⟩ =
      FormattedContent.literal "**bold** <script>alert(1)</script>" :=
  user_content_is_literal ⟨fun _ => false, fun _ _ => none⟩
    ⟨Role.user, "**bold** <script>alert(1)</script>"⟩ rfl

/-- A keyboard event as the `keypress` handler sees it: the key name and the
shift modifier. -/
structure KeyEvent where
  key : String
  shiftKey : Bool
deriving DecidableEq, Repr

/-- Events the component dispatches outward: `send-message` (no payload) and
`input-change` carrying the textarea's current value. -/
inductive OutEvent where
  | sendMessage
  | inputChange (text : String)
deriving DecidableEq, Repr

/-- Result of running the keypress handler: whether the platform default was
suppressed, and the custom events dispatched. -/
structure KeyPressResult where
  preventDefault : Bool
  events : List OutEvent
deriving DecidableEq, Repr

/-- Direct translation of `handleKeyPress` (source lines 139-144): on Enter
without Shift it calls `preventDefault` and dispatches one `send-message`
event; every other keypress is left to the platform default. -/
def handleKeyPress (e : KeyEvent) : KeyPressResult :=
  if e.key = "Enter" ∧ e.shiftKey = false then
    { preventDefault := true, events := [OutEvent.sendMessage] }
  else
    { preventDefault := false, events := [] }

/-- Models the browser's default text-insertion for a keypress on an enabled
textarea: if the handler suppressed the default, the draft is unchanged;
otherwise Enter inserts a newline character and a printable key inserts its
character. -/
def textareaAfterKey (draft : String) (e : KeyEvent) (r : KeyPressResult) : String :=
  if r.preventDefault then draft
  else if e.key = "Enter" then draft ++ "\n"
  else draft ++ e.key

/-- The composer state the render pass reads: the controlled draft text
(`inputText`) and the in-flight flag (`isLoading`) that drives the `disabled`
bindings on the textarea and the send button. -/
structure UiState where
  inputText : String
  isLoading : Bool
deriving DecidableEq, Repr

/-- User input events that can reach the component's input row. -/
inductive DomEvent where
  | keypress (e : KeyEvent)
  | inputEdit (value : String)
  | clickSend
deriving DecidableEq, Repr

/-- One delivered user input event. Models the browser's handling of the
rendered tree (source lines 216-231): the textarea and the send button carry
`?disabled=isLoading`, and a disabled control neither accepts edits nor
delivers `keypress`, `input` or `click` events to its handlers. When enabled: a
keypress runs `handleKeyPress` and then the platform default may edit the
draft; an input edit updates the value and `handleInput` dispatches
`input-change` with it; a click on the send button dispatches `send-message`
(source line 227). -/
def step (s : UiState) : DomEvent → UiState × List OutEvent
  | DomEvent.keypress e =>
    if s.isLoading then (s, [])
    else
      ({ s with inputText := textareaAfterKey s.inputText e (handleKeyPress e) },
       (handleKeyPress e).events)
  | DomEvent.inputEdit v =>
    if s.isLoading then (s, [])
    else ({ s with inputText := v }, [OutEvent.inputChange v])
  | DomEvent.clickSend =>
    if s.isLoading then (s, [])
    else (s, [OutEvent.sendMessage])

/-- A whole sequence of delivered user input events, collecting every event the
component dispatches outward. -/
def stepAll (s : UiState) : List DomEvent → UiState × List OutEvent
  | [] => (s, [])
  | e :: es =>
    let (s1, out1) := step s e
    let (s2, out2) := stepAll s1 es
    (s2, out1 ++ out2)

/-- One rendered message block of the template (source lines 191-210): its
alignment class (`justify-end` for user, `justify-start` otherwise), the
formatted inner content, and whether the three-dot typing indicator is rendered
inside this bubble. -/
structure MessageBlock where
  justifyEnd : Bool
  content : FormattedContent
  hasTypingIndicator : Bool
deriving DecidableEq, Repr

/-- The block the template produces for the message at index `i` of a list of
`total` messages: the indicator is rendered exactly when the message role is
assistant, the index is the last one, and `waitingForFirstToken` is set
(source lines 199-207). -/
def renderMessage (hl : Hljs) (total : Nat) (waitingForFirstToken : Bool)
    (i : Nat) (m : Message) : MessageBlock :=
  { justifyEnd := m.role = Role.user
    content := formatContent hl m
    hasTypingIndicator :=
      m.role = Role.assistant ∧ i = total - 1 ∧ waitingForFirstToken = true }

/-- Helper for `renderMessages`: renders the tail of the message list starting
at index `i`. -/
def renderFrom (hl : Hljs) (total : Nat) (waitingForFirstToken : Bool) :
    Nat → List Message → List MessageBlock
  | _, [] => []
  | i, m :: ms =>
    renderMessage hl total waitingForFirstToken i m
      :: renderFrom hl total waitingForFirstToken (i + 1) ms

/-- The message-list part of `render` (source lines 191-210): `messages.map`
over the list with its index, producing one visual block per message. -/
def renderMessages (hl : Hljs) (messages : List Message)
    (waitingForFirstToken : Bool) : List MessageBlock :=
  renderFrom hl messages.length waitingForFirstToken 0 messages

theorem renderFrom_length (hl : Hljs) (total : Nat) (w : Bool) (i : Nat)
    (ms : List Message) : (renderFrom hl total w i ms).length = ms.length := by
  induction ms generalizing i with
  | nil => rfl
  | cons m ms ih => simp [renderFrom, ih]

theorem renderFrom_get (hl : Hljs) (total : Nat) (w : Bool) (i : Nat)
    (ms : List Message) (j : Nat) (hj : j < ms.length)
    (hj' : j < (renderFrom hl total w i ms).length) :
    (renderFrom hl total w i ms).get ⟨j, hj'⟩ =
      renderMessage hl total w (i + j) (ms.get ⟨j, hj⟩) := by
  induction ms generalizing i j with
  | nil => exact absurd hj (Nat.not_lt_zero j)
  | cons m ms ih =>
    cases j with
    | zero => simp [renderFrom]
    | succ j =>
      have hj2 : j < ms.length := Nat.lt_of_succ_lt_succ hj
      have hj2' : j < (renderFrom hl total w (i + 1) ms).length := by
        rw [renderFrom_length]
        exact hj2
      have hidx : i + (j + 1) = (i + 1) + j := by omega
      simp only [renderFrom, List.get_cons_succ]
      rw [hidx]
      exact ih (i + 1) j hj2 hj2'

/-- The viewport of the message log (`.messages-scroll`): its content height,
its visible height, and the scroll offset the current (possibly animating)
scroll is heading to. -/
structure Viewport where
  scrollHeight : Nat
  clientHeight : Nat
  scrollTop : Nat
deriving DecidableEq, Repr

/-- Maximum scroll offset of a viewport: content height minus visible height. -/
def maxScrollOffset (v : Viewport) : Nat :=
  v.scrollHeight - v.clientHeight

/-- Models the browser's `container.scrollTo` with smooth behavior: the target
offset (clamped to the maximum scroll offset) becomes the single scroll target
of the element, superseding any in-flight smooth scroll rather than queueing
behind it. -/
def scrollTo (v : Viewport) (top : Nat) : Viewport :=
  { v with scrollTop := min top (maxScrollOffset v) }

/-- The body of the `requestAnimationFrame` callback in `scrollToBottom`
(source lines 161-168), with the `querySelector` result passed in as an
optional viewport: when the container is absent (torn-down component, modelled
as `none`) the `if (container)` guard skips everything and the callback
returns without touching anything and without throwing; otherwise it reads
`scrollHeight` and scrolls to it. The `Except` layer makes "does not throw"
explicit: reading a property of an absent element would be the `error`
outcome, and the guard ensures it is never produced. -/
def scrollFrameCallback (container : Option Viewport) :
    Except String (Option Viewport) :=
  match container with
  | none => Except.ok none
  | some v => Except.ok (some (scrollTo v v.scrollHeight))

/-- Running one queued scroll callback over the optional viewport. -/
def runCallback (v : Option Viewport) : Option Viewport :=
  match scrollFrameCallback v with
  | Except.ok r => r
  | Except.error _ => none

/-- Running `n` queued scroll callbacks in order, as the browser does with the
`requestAnimationFrame` queue right before the next paint. -/
def runCallbacks : Nat → Option Viewport → Option Viewport
  | 0, v => v
  | n + 1, v => runCallbacks n (runCallback v)

/-- A mutation the external collaborator applies to the message list: append a
message, or update the content of the last (streaming) message. -/
inductive Mutation where
  | append (m : Message)
  | updateLast (content : String)
deriving DecidableEq, Repr

/-- Replace the content of the last message, if any. -/
def updateLastContent : List Message → String → List Message
  | [], _ => []
  | [m], c => [{ m with content := c }]
  | m :: m' :: ms, c => m :: updateLastContent (m' :: ms) c

/-- Applying one mutation to the message list. -/
def applyMutation (msgs : List Message) : Mutation → List Message
  | Mutation.append m => msgs ++ [m]
  | Mutation.updateLast c => updateLastContent msgs c

/-- The scroll-relevant component state within one paint interval: the current
message list, the number of `requestAnimationFrame` callbacks queued by
`scrollToBottom`, and the (optional) viewport element. -/
structure ChatScrollState where
  messages : List Message
  pendingFrames : Nat
  viewport : Option Viewport
deriving DecidableEq, Repr

/-- Direct translation of `scrollToBottom` (source lines 159-170): it only
queues a `requestAnimationFrame` callback; the scroll itself is deferred to
the next frame. -/
def scrollToBottom (s : ChatScrollState) : ChatScrollState :=
  { s with pendingFrames := s.pendingFrames + 1 }

/-- Direct translation of `updated` (source lines 172-176) combined with the
property change that triggered it: a mutation of the `messages` property makes
`changedProperties.has('messages')` true, so `updated` calls `scrollToBottom`. -/
def updated (s : ChatScrollState) (mu : Mutation) : ChatScrollState :=
  scrollToBottom { s with messages := applyMutation s.messages mu }

/-- Models the next layout/paint pass: layout settles first, so the viewport's
`scrollHeight` reflects the current message list (given by the abstract layout
function `height`), and then every queued `requestAnimationFrame` callback runs. -/
def settleFrame (height : List Message → Nat) (s : ChatScrollState) : ChatScrollState :=
  { messages := s.messages
    pendingFrames := 0
    viewport :=
      runCallbacks s.pendingFrames
        (s.viewport.map (fun v => { v with scrollHeight := height s.messages })) }

/-- Substring containment: `t` occurs verbatim inside `s`. -/
def containsSubstr (s t : String) : Prop :=
  ∃ a b, s = a ++ t ++ b

theorem strJoin_cons (x : String) (xs : List String) :
    String.join (x :: xs) = x ++ String.join xs := by
  apply String.ext
  simp [String.join_eq, String.data_append]

theorem intercalate_go_prefix (s : String) :
    ∀ (as : List String) (acc : String),
      ∃ rest, String.intercalate.go acc s as = acc ++ rest := by
  intro as
  induction as with
  | nil =>
    intro acc
    exact ⟨"", by simp [String.intercalate.go]⟩
  | cons a as ih =>
    intro acc
    obtain ⟨r, hr⟩ := ih (acc ++ s ++ a)
    refine ⟨s ++ a ++ r, ?_⟩
    simp only [String.intercalate.go, hr]
    simp [String.append_assoc]

theorem intercalate_cons_prefix (s l : String) (more : List String) :
    ∃ rest, String.intercalate s (l :: more) = l ++ rest := by
  simpa [String.intercalate] using intercalate_go_prefix s more l

theorem takeCode_spec (codeLines post : List String) (cl : String)
    (hcode : ∀ l ∈ codeLines, isFenceLine l = false) (hcl : isFenceLine cl = true) :
    takeCode (codeLines ++ cl :: post) = (codeLines, post) := by
  induction codeLines with
  | nil => simp [takeCode, hcl]
  | cons l ls ih =>
    have h1 : isFenceLine l = false := hcode l (by simp)
    have h2 : ∀ x ∈ ls, isFenceLine x = false := fun x hx => hcode x (by simp [hx])
    simp [takeCode, h1, ih h2]

theorem takePlain_mem_rest (p : List String) : ∀ x ∈ (takePlain p).2, x ∈ p := by
  induction p with
  | nil => simp [takePlain]
  | cons l ls ih =>
    by_cases h : isBlockStart l
    · simp [takePlain, h]
    · intro x hx
      simp only [takePlain, h, Bool.false_eq_true, if_false] at hx
      exact List.mem_cons_of_mem l (ih x hx)

theorem takePlain_append (p : List String) (r0 : String) (rs : List String)
    (hr0 : isBlockStart r0 = true) :
    takePlain (p ++ r0 :: rs) = ((takePlain p).1, (takePlain p).2 ++ r0 :: rs) := by
  induction p with
  | nil => simp [takePlain, hr0]
  | cons l ls ih =>
    by_cases h : isBlockStart l
    · simp [takePlain, h]
    · simp [takePlain, h, ih]

theorem strJoin_append (xs ys : List String) :
    String.join (xs ++ ys) = String.join xs ++ String.join ys := by
  apply String.ext
  simp [String.join_eq, String.data_append]

theorem renderBlocks_append_aux (hl : Hljs) :
    ∀ (n : Nat) (pre : List String), pre.length ≤ n →
      ∀ (r0 : String) (rs : List String), isBlockStart r0 = true →
        (∀ l ∈ pre, isFenceLine l = false ∧ isHtmlLine l = false) →
        renderBlocks hl (pre ++ r0 :: rs) =
          renderBlocks hl pre ++ renderBlocks hl (r0 :: rs) := by
  intro n
  induction n using Nat.strong_induction_on with
  | _ n ih =>
    intro pre hlen r0 rs hr0 hpre
    cases pre with
    | nil => simp [renderBlocks_nil]
    | cons l p =>
      have hf : isFenceLine l = false := (hpre l (by simp)).1
      have hh : isHtmlLine l = false := (hpre l (by simp)).2
      have hp : ∀ x ∈ p, isFenceLine x = false ∧ isHtmlLine x = false :=
        fun x hx => hpre x (by simp [hx])
      have hplen : p.length < n := by
        simp only [List.length_cons] at hlen
        omega
      by_cases hb : isBlank l
      · rw [List.cons_append, renderBlocks_cons_blank hl l _ hf hh hb,
          renderBlocks_cons_blank hl l p hf hh hb]
        exact ih p.length hplen p le_rfl r0 rs hr0 hp
      · have hb2 : isBlank l = false := by simpa using hb
        rw [List.cons_append,
          renderBlocks_cons_plain hl l _ hf hh hb2,
          renderBlocks_cons_plain hl l p hf hh hb2,
          takePlain_append p r0 rs hr0]
        simp only [List.cons_append]
        congr 1
        have hrlen : (takePlain p).2.length < n :=
          Nat.lt_of_le_of_lt (takePlain_rest_length p) hplen
        have hrmem : ∀ x ∈ (takePlain p).2, isFenceLine x = false ∧ isHtmlLine x = false :=
          fun x hx => hp x (takePlain_mem_rest p x hx)
        exact ih (takePlain p).2.length hrlen (takePlain p).2 le_rfl r0 rs hr0 hrmem

/-- Splitting the block renderer at a block-start line: any prefix of plain or
blank lines renders independently of what follows it. -/
theorem renderBlocks_append (hl : Hljs) (pre : List String) (r0 : String)
    (rs : List String) (hr0 : isBlockStart r0 = true)
    (hpre : ∀ l ∈ pre, isFenceLine l = false ∧ isHtmlLine l = false) :
    renderBlocks hl (pre ++ r0 :: rs) =
      renderBlocks hl pre ++ renderBlocks hl (r0 :: rs) :=
  renderBlocks_append_aux hl pre.length pre le_rfl r0 rs hr0 hpre

/-- A concrete highlighter model recognising no language at all. -/
def hlNone : Hljs :=
  ⟨fun _ => false, fun _ _ => none⟩

/-- A concrete highlighter model recognising `python` and wrapping the escaped
code in a token span, the shape of `hljs.highlight(...).value`. -/
def hlPy : Hljs :=
  ⟨fun l => l == "python",
   fun code _ => some ("<span class=\"hljs-keyword\">" ++ escapeHtml code ++ "</span>")⟩

/-- A concrete highlighter model recognising `python` but always throwing. -/
def hlThrow : Hljs :=
  ⟨fun l => l == "python", fun _ _ => none⟩

/-- C2 counterexample: for the assistant message whose content is the raw
string of a script element, the formatter's output is that script element
passed through verbatim (because the renderer is configured with `html: true`
and the result is injected via `unsafeHTML`), so the output is not
script-free. -/
theorem assistant_script_not_sanitized :
    ∃ out, formatContent hlNone ⟨Role.assistant, "<script>alert(1)</script>"⟩ =
        FormattedContent.unsafeHtml out ∧
      containsSubstr out "<script>alert(1)</script>" := by
  refine ⟨"<script>alert(1)</script>\n", by decide, "", "\n", by decide⟩

/-- C2 amended: for every assistant message the formatter's output is the
markdown rendering injected as raw HTML, and with `html: true` a raw HTML
block at the head of the content — script tags included — passes through to
the output verbatim and unescaped; the output is only guaranteed script-free
for trusted content, per the spec's trusted-pipeline assumption. -/
theorem assistant_html_passthrough (hl : Hljs) (m : Message)
    (l : String) (ls : List String)
    (hrole : m.role = Role.assistant)
    (hsplit : splitLines m.content = l :: ls)
    (hf : isFenceLine l = false)
    (hh : isHtmlLine l = true) :
    ∃ out, formatContent hl m = FormattedContent.unsafeHtml out ∧
      containsSubstr out l := by
  refine ⟨mdRender hl m.content, by simp [formatContent, hrole], ?_⟩
  unfold mdRender
  rw [hsplit, renderBlocks_cons_html hl l ls hf hh, strJoin_cons]
  obtain ⟨r, hr⟩ := intercalate_cons_prefix "\n" l (takeHtml ls).1
  rw [hr]
  exact ⟨"", r ++ "\n" ++ String.join (renderBlocks hl (takeHtml ls).2),
    by simp [String.append_assoc]⟩

/-- Witness for the amended C2 theorem at a concrete script payload. -/
theorem assistant_html_passthrough_witness :
    ∃ out, formatContent hlNone ⟨Role.assistant, "<img src=x onerror=alert(1)>"⟩ =
        FormattedContent.unsafeHtml out ∧
      containsSubstr out "<img src=x onerror=alert(1)>" :=
  assistant_html_passthrough hlNone ⟨Role.assistant, "<img src=x onerror=alert(1)>"⟩
    "<img src=x onerror=alert(1)>" [] rfl (by decide) (by decide) (by decide)

/-- C7: for every assistant message whose content contains a fenced code
block (preceded by any plain or blank lines) tagged with a language the
highlighter recognises, and for which the highlighter succeeds, the formatted
output contains the highlighter's token markup for that block. -/
theorem recognized_language_block_highlighted (hl : Hljs) (m : Message)
    (fenceLine lang hv : String) (pre codeLines post : List String)
    (hrole : m.role = Role.assistant)
    (hsplit : splitLines m.content = pre ++ fenceLine :: (codeLines ++ "```" :: post))
    (hpre : ∀ l ∈ pre, isFenceLine l = false ∧ isHtmlLine l = false)
    (hfence : isFenceLine fenceLine = true)
    (hlang : fenceInfo fenceLine = lang)
    (hcode : ∀ l ∈ codeLines, isFenceLine l = false)
    (hne : lang ≠ "")
    (hrec : hl.getLanguage lang = true)
    (hhv : hl.highlight (codeJoin codeLines) lang = some hv)
    (hvne : hv ≠ "") :
    ∃ out, formatContent hl m = FormattedContent.unsafeHtml out ∧
      containsSubstr out hv := by
  have hbs : isBlockStart fenceLine = true := by
    simp [isBlockStart, hfence]
  refine ⟨mdRender hl m.content, by simp [formatContent, hrole], ?_⟩
  unfold mdRender
  rw [hsplit, renderBlocks_append hl pre fenceLine _ hbs hpre, strJoin_append,
    renderBlocks_cons_fence hl fenceLine _ hfence,
    takeCode_spec codeLines post "```" hcode (by decide), strJoin_cons]
  have hhook : mdHighlightHook hl (codeJoin codeLines) lang = hv := by
    simp [mdHighlightHook, hne, hrec, hhv]
  simp only [hlang, renderFence, hhook, hvne, if_neg hne, if_neg hvne]
  exact ⟨String.join (renderBlocks hl pre) ++
      ("<pre><code class=\"language-" ++ lang ++ "\">"),
    "</code></pre>\n" ++ String.join (renderBlocks hl post),
    by simp [String.append_assoc]⟩

/-- Witness for C7 at a concrete recognised-language fence preceded by a
paragraph. -/
theorem recognized_language_block_highlighted_witness :
    ∃ out, formatContent hlPy ⟨Role.assistant, "Here:\n\n```python\nx()\n```"⟩ =
        FormattedContent.unsafeHtml out ∧
      containsSubstr out "<span class=\"hljs-keyword\">x()\n</span>" :=
  recognized_language_block_highlighted hlPy ⟨Role.assistant, "Here:\n\n```python\nx()\n```"⟩
    "```python" "python" "<span class=\"hljs-keyword\">x()\n</span>" ["Here:", ""] ["x()"] []
    rfl (by decide) (by decide) (by decide) (by decide) (by decide) (by decide)
    (by decide) (by decide) (by decide)

/-- C8: if the highlighter throws on a fenced block, or the block's language
tag is unrecognised or absent, the formatter falls back to the escaped
original text for that block only: the block's text is still present
(escaped) in the output, and everything after the block still renders
unchanged. The highlighter exception is absorbed by the hook's `catch`
(see `mdHighlightHook`), so no error escapes the formatter. -/
theorem failed_highlight_falls_back_locally (hl : Hljs) (m : Message)
    (fenceLine lang : String) (pre codeLines post : List String)
    (hrole : m.role = Role.assistant)
    (hsplit : splitLines m.content = pre ++ fenceLine :: (codeLines ++ "```" :: post))
    (hpre : ∀ l ∈ pre, isFenceLine l = false ∧ isHtmlLine l = false)
    (hfence : isFenceLine fenceLine = true)
    (hlang : fenceInfo fenceLine = lang)
    (hcode : ∀ l ∈ codeLines, isFenceLine l = false)
    (hfail : hl.highlight (codeJoin codeLines) lang = none ∨
      hl.getLanguage lang = false ∨ lang = "") :
    ∃ a, formatContent hl m =
        FormattedContent.unsafeHtml (a ++ String.join (renderBlocks hl post)) ∧
      containsSubstr a (escapeHtml (codeJoin codeLines)) := by
  have hbs : isBlockStart fenceLine = true := by
    simp [isBlockStart, hfence]
  have hhook : mdHighlightHook hl (codeJoin codeLines) lang = "" := by
    rcases hfail with h | h | h
    · simp [mdHighlightHook, h]
    · simp [mdHighlightHook, h]
    · simp [mdHighlightHook, h]
  refine ⟨String.join (renderBlocks hl pre) ++ renderFence hl lang (codeJoin codeLines),
    ?_, ?_⟩
  · have : formatContent hl m = FormattedContent.unsafeHtml (mdRender hl m.content) := by
      simp [formatContent, hrole]
    rw [this]
    unfold mdRender
    rw [hsplit, renderBlocks_append hl pre fenceLine _ hbs hpre, strJoin_append,
      renderBlocks_cons_fence hl fenceLine _ hfence,
      takeCode_spec codeLines post "```" hcode (by decide), strJoin_cons, hlang,
      String.append_assoc]
  · by_cases hne : lang = ""
    · rw [hne] at hhook
      exact ⟨String.join (renderBlocks hl pre) ++ "<pre><code>", "</code></pre>\n",
        by simp [renderFence, hhook, hne, String.append_assoc]⟩
    · exact ⟨String.join (renderBlocks hl pre) ++
          ("<pre><code class=\"language-" ++ lang ++ "\">"), "</code></pre>\n",
        by simp [renderFence, hhook, hne, String.append_assoc]⟩

/-- Witness for C8: the highlighter recognises `python` but throws; the block
text is still present escaped and the trailing paragraph still renders. -/
theorem failed_highlight_falls_back_locally_witness :
    ∃ a, formatContent hlThrow ⟨Role.assistant, "intro\n\n```python\na < b\n```\ntail"⟩ =
        FormattedContent.unsafeHtml (a ++ String.join (renderBlocks hlThrow ["tail"])) ∧
      containsSubstr a (escapeHtml (codeJoin ["a < b"])) :=
  failed_highlight_falls_back_locally hlThrow
    ⟨Role.assistant, "intro\n\n```python\na < b\n```\ntail"⟩
    "```python" "python" ["intro", ""] ["a < b"] ["tail"]
    rfl (by decide) (by decide) (by decide) (by decide) (by decide)
    (Or.inl (by decide))

/-- C3: with the composer idle (`isLoading = false`), an Enter keypress
without Shift dispatches exactly one `send-message` event and suppresses the
default newline insertion, leaving the draft unchanged; Shift+Enter dispatches
no event, keeps the composer idle, and the platform default inserts exactly
one newline character into the draft. -/
theorem idle_enter_submits_shift_enter_newline (draft : String) :
    step ⟨draft, false⟩ (DomEvent.keypress ⟨"Enter", false⟩) =
      (⟨draft, false⟩, [OutEvent.sendMessage]) ∧
    (handleKeyPress ⟨"Enter", false⟩).preventDefault = true ∧
    step ⟨draft, false⟩ (DomEvent.keypress ⟨"Enter", true⟩) =
      (⟨draft ++ "\n", false⟩, []) ∧
    (draft ++ "\n").length = draft.length + 1 := by
  refine ⟨?_, rfl, ?_, ?_⟩
  · simp [step, handleKeyPress, textareaAfterKey]
  · simp [step, handleKeyPress, textareaAfterKey]
  · simp [String.length_append]
    decide

/-- C6: while `isLoading` is true the disabled textarea and button deliver no
events to the handlers, so for every sequence of user input events no
`send-message` or `input-change` event is dispatched and the draft text is
never edited. -/
theorem loading_composer_inert (draft : String) (evs : List DomEvent) :
    stepAll ⟨draft, true⟩ evs = (⟨draft, true⟩, []) := by
  induction evs with
  | nil => rfl
  | cons e es ih =>
    cases e <;> simp [stepAll, step, ih]

/-- C10 (implicit): submission is not blocked on an empty or whitespace-only
draft — in the idle state both the Enter path and the send button dispatch the
`send-message` event whatever the draft's content is; the handlers never
inspect the draft. -/
theorem empty_draft_submission_allowed (draft : String) :
    (step ⟨draft, false⟩ (DomEvent.keypress ⟨"Enter", false⟩)).2 =
      [OutEvent.sendMessage] ∧
    (step ⟨draft, false⟩ DomEvent.clickSend).2 = [OutEvent.sendMessage] := by
  constructor
  · simp [step, handleKeyPress]
  · simp [step]

/-- C9: when the deferred scroll callback runs and the viewport element is
absent (torn-down component), the callback is a no-op: it performs no scroll
and returns normally instead of throwing, for any number of queued callbacks. -/
theorem missing_viewport_scroll_noop :
    scrollFrameCallback none = Except.ok none ∧
    ∀ n : Nat, runCallbacks n none = none := by
  refine ⟨rfl, ?_⟩
  intro n
  induction n with
  | zero => rfl
  | succ n ih => simpa [runCallbacks, runCallback, scrollFrameCallback] using ih

/-- C4: for every message list and composer state, the rendered output
contains the typing (waiting) indicator iff the last message's role is
assistant and `waitingForFirstToken` is true, and any block carrying the
indicator is the block of the last message, never an earlier one. -/
theorem typing_indicator_iff_last_assistant_waiting (hl : Hljs)
    (msgs : List Message) (w : Bool) (h : msgs ≠ []) :
    ((∃ j : Fin (renderMessages hl msgs w).length,
        ((renderMessages hl msgs w).get j).hasTypingIndicator = true) ↔
      ((msgs.getLast h).role = Role.assistant ∧ w = true)) ∧
    (∀ j : Fin (renderMessages hl msgs w).length,
      ((renderMessages hl msgs w).get j).hasTypingIndicator = true →
        (j : Nat) = msgs.length - 1) := by
  have hlen : (renderMessages hl msgs w).length = msgs.length :=
    renderFrom_length hl msgs.length w 0 msgs
  have hpos : 0 < msgs.length := List.length_pos.mpr h
  have hget : ∀ (j : Fin (renderMessages hl msgs w).length),
      (renderMessages hl msgs w).get j =
        renderMessage hl msgs.length w (j : Nat)
          (msgs.get ⟨(j : Nat), by have := j.isLt; omega⟩) := by
    intro j
    have hj2 : (j : Nat) < msgs.length := by have := j.isLt; omega
    have hfrom := renderFrom_get hl msgs.length w 0 msgs (j : Nat) hj2 j.isLt
    simpa using hfrom
  have hlast : msgs.getLast h = msgs.get ⟨msgs.length - 1, by omega⟩ := by
    rw [List.getLast_eq_getElem, List.get_eq_getElem]
  have hsame : ∀ (i j : Nat) (hi : i < msgs.length) (hj : j < msgs.length), i = j →
      msgs.get ⟨i, hi⟩ = msgs.get ⟨j, hj⟩ := by
    intro i j hi hj hij
    subst hij
    rfl
  constructor
  · constructor
    · rintro ⟨j, hj⟩
      rw [hget j] at hj
      simp only [renderMessage, decide_eq_true_eq] at hj
      obtain ⟨h1, h2, h3⟩ := hj
      refine ⟨?_, h3⟩
      rw [hlast]
      rw [← hsame (j : Nat) (msgs.length - 1) (by have := j.isLt; omega) (by omega) h2]
      exact h1
    · rintro ⟨hrole, hw⟩
      have hjlt : msgs.length - 1 < (renderMessages hl msgs w).length := by omega
      refine ⟨⟨msgs.length - 1, hjlt⟩, ?_⟩
      rw [hget ⟨msgs.length - 1, hjlt⟩]
      simp only [renderMessage, decide_eq_true_eq]
      refine ⟨?_, trivial, hw⟩
      rw [hlast] at hrole
      rw [← hsame (msgs.length - 1) (msgs.length - 1) (by omega) (by omega) rfl]
      exact hrole
  · intro j hj
    rw [hget j] at hj
    simp only [renderMessage, decide_eq_true_eq] at hj
    exact hj.2.1

/-- Witness for C4: two messages with the last one from the assistant and the
waiting flag set. -/
theorem typing_indicator_iff_last_assistant_waiting_witness :
    ((∃ j : Fin (renderMessages hlNone [⟨Role.user, "hi"⟩, ⟨Role.assistant, ""⟩] true).length,
        ((renderMessages hlNone [⟨Role.user, "hi"⟩, ⟨Role.assistant, ""⟩] true).get j).hasTypingIndicator = true) ↔
      ((([⟨Role.user, "hi"⟩, ⟨Role.assistant, ""⟩] : List Message).getLast (by decide)).role = Role.assistant ∧
        true = true)) ∧
    (∀ j : Fin (renderMessages hlNone [⟨Role.user, "hi"⟩, ⟨Role.assistant, ""⟩] true).length,
      ((renderMessages hlNone [⟨Role.user, "hi"⟩, ⟨Role.assistant, ""⟩] true).get j).hasTypingIndicator = true →
        (j : Nat) = ([⟨Role.user, "hi"⟩, ⟨Role.assistant, ""⟩] : List Message).length - 1) :=
  typing_indicator_iff_last_assistant_waiting hlNone
    [⟨Role.user, "hi"⟩, ⟨Role.assistant, ""⟩] true (by decide)

theorem foldl_updated_viewport (s : ChatScrollState) (muts : List Mutation) :
    (muts.foldl updated s).viewport = s.viewport := by
  induction muts generalizing s with
  | nil => rfl
  | cons mu mus ih => simp [List.foldl, ih, updated, scrollToBottom]

theorem foldl_updated_pending (s : ChatScrollState) (muts : List Mutation) :
    (muts.foldl updated s).pendingFrames = s.pendingFrames + muts.length := by
  induction muts generalizing s with
  | nil => simp
  | cons mu mus ih =>
    simp [List.foldl, ih, updated, scrollToBottom]
    omega

theorem scrollTo_scrollHeight_idem (v : Viewport) :
    scrollTo (scrollTo v v.scrollHeight) (scrollTo v v.scrollHeight).scrollHeight =
      scrollTo v v.scrollHeight := by
  simp [scrollTo, maxScrollOffset]

theorem runCallbacks_coalesce :
    ∀ n : Nat, 1 ≤ n → ∀ v : Viewport,
      runCallbacks n (some v) = some (scrollTo v v.scrollHeight) := by
  intro n
  induction n with
  | zero => omega
  | succ n ih =>
    intro _ v
    cases Nat.eq_zero_or_pos n with
    | inl h0 =>
      subst h0
      rfl
    | inr hpos =>
      have step1 : runCallbacks (n + 1) (some v) =
          runCallbacks n (some (scrollTo v v.scrollHeight)) := rfl
      rw [step1, ih hpos (scrollTo v v.scrollHeight), scrollTo_scrollHeight_idem]

/-- C5: after any non-empty sequence of message mutations within one paint
interval, once layout settles the viewport's scroll target equals its maximum
scroll offset and its content height reflects the final message list; moreover
the deferred scroll calls coalesce — for any number of queued callbacks the
result is the single scroll-to-bottom target, each call superseding the
pending scroll intent rather than queueing conflicting animations. -/
theorem scroll_target_settles_at_max_offset (height : List Message → Nat)
    (s : ChatScrollState) (muts : List Mutation) (v : Viewport)
    (hmuts : muts ≠ []) (hv : s.viewport = some v) :
    (∃ v' : Viewport,
      (settleFrame height (muts.foldl updated s)).viewport = some v' ∧
      v'.scrollTop = maxScrollOffset v' ∧
      v'.scrollHeight = height (muts.foldl updated s).messages) ∧
    (∀ n : Nat, 1 ≤ n → ∀ u : Viewport,
      runCallbacks n (some u) = some (scrollTo u u.scrollHeight)) := by
  constructor
  · have hview : (muts.foldl updated s).viewport = some v := by
      rw [foldl_updated_viewport]
      exact hv
    have hpend : 1 ≤ (muts.foldl updated s).pendingFrames := by
      rw [foldl_updated_pending]
      have hmlen : 0 < muts.length := List.length_pos.mpr hmuts
      omega
    refine ⟨scrollTo { v with scrollHeight := height (muts.foldl updated s).messages }
        (height (muts.foldl updated s).messages), ?_, ?_, ?_⟩
    · have hsettle : (settleFrame height (muts.foldl updated s)).viewport =
          runCallbacks (muts.foldl updated s).pendingFrames
            (some { v with scrollHeight := height (muts.foldl updated s).messages }) := by
        simp [settleFrame, hview]
      rw [hsettle,
        runCallbacks_coalesce (muts.foldl updated s).pendingFrames hpend
          { v with scrollHeight := height (muts.foldl updated s).messages }]
    · simp [scrollTo, maxScrollOffset]
    · rfl
  · exact runCallbacks_coalesce

/-- Witness for C5: one appended message, a present viewport, a concrete
layout function. -/
theorem scroll_target_settles_at_max_offset_witness :
    (∃ v' : Viewport,
      (settleFrame (fun ms => 50 * ms.length)
          ([Mutation.append ⟨Role.assistant, "hi"⟩].foldl updated
            ⟨[], 0, some ⟨100, 40, 0⟩⟩)).viewport = some v' ∧
      v'.scrollTop = maxScrollOffset v' ∧
      v'.scrollHeight = (fun ms => 50 * ms.length)
          (([Mutation.append ⟨Role.assistant, "hi"⟩].foldl updated
            ⟨[], 0, some ⟨100, 40, 0⟩⟩).messages)) ∧
    (∀ n : Nat, 1 ≤ n → ∀ u : Viewport,
      runCallbacks n (some u) = some (scrollTo u u.scrollHeight)) :=
  scroll_target_settles_at_max_offset (fun ms => 50 * ms.length)
    ⟨[], 0, some ⟨100, 40, 0⟩⟩ [Mutation.append ⟨Role.assistant, "hi"⟩] ⟨100, 40, 0⟩
    (by decide) rfl
